/-
Verification of the data-normalization and anomaly-statistics pipeline of the
climate-dashboard repository (src/app.py and src/data_loader.py).

The pandas pipeline of `sst_anomaly_fig` / `sie_anomaly_fig` is embedded shallowly:
a DataFrame row becomes a `Rec` record, float measurements become `Option ℚ`
(`none` models NaN / a missing value), `pd.Timestamp` arithmetic becomes explicit
Gregorian-calendar functions, and pandas groupby/merge/sort operations become list
functions.  Components the spec describes but that are absent from src/ (the
Calendar Normalizer with gap interpolation, the sample-standard-deviation / sigma
half of the Baseline Statistics Engine, `EmptySeriesError`) are modelled from the
spec; each such definition says so in its doc comment.
-/
import Mathlib

namespace ClimateDash

/-! ## Gregorian calendar, as implemented by `pd.Timestamp` arithmetic -/

/-- Gregorian leap-year test; this is the calendar pandas datetime arithmetic uses. -/
def isLeap (y : ℕ) : Bool := decide ((y % 4 = 0 ∧ ¬y % 100 = 0) ∨ y % 400 = 0)

/-- Number of days in year `y`. -/
def daysInYear (y : ℕ) : ℕ := if isLeap y then 366 else 365

/-- Length of month `m` (1-12) in a year with leap flag `L`. -/
def monthLength (L : Bool) (m : ℕ) : ℕ :=
  if m = 2 then (if L then 29 else 28)
  else if m = 4 ∨ m = 6 ∨ m = 9 ∨ m = 11 then 30
  else 31

/-- Days of the year strictly before month `m` (for months 1-12). -/
def daysBefore (L : Bool) : ℕ → ℕ
  | 0 => 0
  | 1 => 0
  | m + 2 => daysBefore L (m + 1) + monthLength L (m + 1)

/-- A calendar date, as produced by `pd.to_datetime`. -/
structure Date where
  year : ℕ
  month : ℕ
  day : ℕ
deriving DecidableEq, Repr

/-- The `.dt.dayofyear` accessor (src/app.py lines 34, 76, 137, 160, 220, 284):
1-based ordinal of the date within its calendar year, recomputed from the date. -/
def dayOfYear (dt : Date) : ℕ := daysBefore (isLeap dt.year) dt.month + dt.day

/-- A well-formed calendar date (what `pd.to_datetime` accepts without raising). -/
def Date.Valid (dt : Date) : Prop :=
  1 ≤ dt.month ∧ dt.month ≤ 12 ∧ 1 ≤ dt.day ∧ dt.day ≤ monthLength (isLeap dt.year) dt.month

instance (dt : Date) : Decidable dt.Valid := by unfold Date.Valid; infer_instance

/-- Month and day from a 1-based ordinal within a single year; the fuel walks over
the at most 12 months. -/
def mdAux (L : Bool) : ℕ → ℕ → ℕ → ℕ × ℕ
  | 0, m, n => (m, n)
  | f + 1, m, n => if n ≤ monthLength L m then (m, n) else mdAux L f (m + 1) (n - monthLength L m)

def mdFromOrdinal (L : Bool) (n : ℕ) : ℕ × ℕ := mdAux L 11 1 n

/-- `pd.to_datetime(str(y)) + pd.to_timedelta(c, unit='D')` produces the date with
1-based ordinal `c + 1` counted from Jan 1 of year `y`, rolling over into later
years when the ordinal exceeds the year length.  Fuel-structured so the kernel can
evaluate it on concrete inputs (each rollover consumes at least 365 of `n`). -/
def dateFromOrdinalAux : ℕ → ℕ → ℕ → Date
  | 0, y, n => ⟨y, (mdFromOrdinal (isLeap y) n).1, (mdFromOrdinal (isLeap y) n).2⟩
  | f + 1, y, n =>
    if daysInYear y < n then dateFromOrdinalAux f (y + 1) (n - daysInYear y)
    else ⟨y, (mdFromOrdinal (isLeap y) n).1, (mdFromOrdinal (isLeap y) n).2⟩

def dateFromOrdinal (y n : ℕ) : Date := dateFromOrdinalAux n y n

lemma daysInYear_ge (y : ℕ) : 365 ≤ daysInYear y := by
  unfold daysInYear; split <;> omega

lemma daysInYear_le (y : ℕ) : daysInYear y ≤ 366 := by
  unfold daysInYear; split <;> omega

lemma monthLength_le_31 (L : Bool) (m : ℕ) : monthLength L m ≤ 31 := by
  unfold monthLength
  split
  · split <;> omega
  · split <;> omega

lemma daysInYear_eq_ite (y : ℕ) : daysInYear y = if isLeap y then 366 else 365 := rfl

set_option maxRecDepth 10000 in
lemma mdFromOrdinal_ok : ∀ L : Bool, ∀ n : ℕ, n < 367 →
    1 ≤ n → n ≤ (if L then 366 else 365) →
    (1 ≤ (mdFromOrdinal L n).1 ∧ (mdFromOrdinal L n).1 ≤ 12 ∧
      1 ≤ (mdFromOrdinal L n).2 ∧ (mdFromOrdinal L n).2 ≤ monthLength L (mdFromOrdinal L n).1 ∧
      daysBefore L (mdFromOrdinal L n).1 + (mdFromOrdinal L n).2 = n) := by decide

/-- The non-rollover branch of `dateFromOrdinalAux` yields a valid date whose
day-of-year is exactly the given ordinal. -/
lemma dateOrdBase_ok (y n : ℕ) (h1 : 1 ≤ n) (h2 : n ≤ daysInYear y) :
    (Date.mk y (mdFromOrdinal (isLeap y) n).1 (mdFromOrdinal (isLeap y) n).2).Valid ∧
    dayOfYear ⟨y, (mdFromOrdinal (isLeap y) n).1, (mdFromOrdinal (isLeap y) n).2⟩ = n := by
  have h3 : n < 367 := by have := daysInYear_le y; omega
  have h4 : n ≤ (if isLeap y then 366 else 365) := by
    rw [← daysInYear_eq_ite]; exact h2
  obtain ⟨a1, a2, a3, a4, a5⟩ := mdFromOrdinal_ok (isLeap y) n h3 h1 h4
  exact ⟨⟨a1, a2, a3, a4⟩, a5⟩

lemma dateFromOrdinalAux_ok : ∀ f y n, 1 ≤ n → n ≤ 365 * f + 365 →
    (dateFromOrdinalAux f y n).Valid ∧
    1 ≤ dayOfYear (dateFromOrdinalAux f y n) ∧ dayOfYear (dateFromOrdinalAux f y n) ≤ 366 := by
  intro f
  induction f with
  | zero =>
    intro y n h1 h2
    have h3 : n ≤ daysInYear y := by have := daysInYear_ge y; omega
    obtain ⟨hv, hd⟩ := dateOrdBase_ok y n h1 h3
    refine ⟨hv, ?_, ?_⟩ <;> rw [show dateFromOrdinalAux 0 y n =
      ⟨y, (mdFromOrdinal (isLeap y) n).1, (mdFromOrdinal (isLeap y) n).2⟩ from rfl, hd]
    · exact h1
    · have := daysInYear_le y; omega
  | succ f ih =>
    intro y n h1 h2
    rw [dateFromOrdinalAux]
    by_cases hc : daysInYear y < n
    · rw [if_pos hc]
      have hy := daysInYear_ge y
      exact ih (y + 1) (n - daysInYear y) (by omega) (by omega)
    · rw [if_neg hc]
      push_neg at hc
      obtain ⟨hv, hd⟩ := dateOrdBase_ok y n h1 hc
      refine ⟨hv, ?_, ?_⟩ <;> rw [hd]
      · exact h1
      · have := daysInYear_le y; omega

lemma dateFromOrdinal_ok (y n : ℕ) (h : 1 ≤ n) :
    (dateFromOrdinal y n).Valid ∧
    1 ≤ dayOfYear (dateFromOrdinal y n) ∧ dayOfYear (dateFromOrdinal y n) ≤ 366 :=
  dateFromOrdinalAux_ok n y n h (by omega)

/-- Within the year (ordinal at most the year length) there is no rollover:
the produced date is in year `y` and its day-of-year is exactly the ordinal. -/
lemma dateFromOrdinal_within (y n : ℕ) (h1 : 1 ≤ n) (h2 : n ≤ daysInYear y) :
    (dateFromOrdinal y n).year = y ∧ dayOfYear (dateFromOrdinal y n) = n := by
  obtain ⟨hv, hd⟩ := dateOrdBase_ok y n h1 h2
  have hbase : dateFromOrdinal y n =
      ⟨y, (mdFromOrdinal (isLeap y) n).1, (mdFromOrdinal (isLeap y) n).2⟩ := by
    unfold dateFromOrdinal
    cases n with
    | zero => omega
    | succ n' =>
      rw [dateFromOrdinalAux, if_neg (by omega)]
  rw [hbase]
  exact ⟨rfl, hd⟩

set_option maxRecDepth 10000 in
lemma daysBefore_add_day_le : ∀ L : Bool, ∀ m : ℕ, m < 13 → ∀ d : ℕ, d < 32 →
    (1 ≤ m → 1 ≤ d → d ≤ monthLength L m → daysBefore L m + d ≤ 366) := by decide

lemma dayOfYear_bounds_of_valid (dt : Date) (h : dt.Valid) :
    1 ≤ dayOfYear dt ∧ dayOfYear dt ≤ 366 := by
  obtain ⟨h1, h2, h3, h4⟩ := h
  have h5 : dt.day ≤ 31 := le_trans h4 (monthLength_le_31 _ _)
  constructor
  · unfold dayOfYear; omega
  · exact daysBefore_add_day_le (isLeap dt.year) dt.month (by omega) dt.day (by omega) h1 h3 h4

/-! ## The exploded per-day frame of `sst_anomaly_fig` (src/app.py lines 124-140) -/

/-- One row of the exploded per-day frame `df_years`: the `name` column (the numeric
year key of the source JSON), the constructed `date`, the `day_of_year` column, and
the measurement column (`data` for SST, `Extent` for SIE); `none` models NaN or a
missing value. -/
structure Rec where
  name : ℕ
  date : Date
  day_of_year : ℕ
  data : Option ℚ
deriving DecidableEq, Repr

/-- `DataFrame.explode` emits one NaN row for an empty list-like cell. -/
def pad (l : List (Option ℚ)) : List (Option ℚ) := if l.isEmpty then [none] else l

def flatMapL {α β : Type} (f : α → List β) : List α → List β
  | [] => []
  | x :: t => f x ++ flatMapL f t

/-- `df_years.groupby('name').cumcount()` (src/app.py lines 22, 135): each row is
tagged with the number of earlier rows sharing its `name`; `cnt` carries the counts
accumulated so far. -/
def cumcountAux : List (ℕ × Option ℚ) → (ℕ → ℕ) → List (ℕ × ℕ × Option ℚ)
  | [], _ => []
  | p :: t, cnt => (p.1, cnt p.1, p.2) :: cumcountAux t fun z => if z = p.1 then cnt z + 1 else cnt z

/-- The exploded (`name`, `data`) rows in frame order (line 131). -/
def sstFlat (input : List (ℕ × List (Option ℚ))) : List (ℕ × Option ℚ) :=
  flatMapL (fun p => (pad p.2).map fun v => (p.1, v)) input

/-- One record of `df_years`: `date = pd.to_datetime(name) + pd.to_timedelta(c, 'D')`
(line 135) and `day_of_year = date.dt.dayofyear` (line 137), i.e. the date with
1-based ordinal `c + 1` from Jan 1 of year `y`. -/
def sstRec (y c : ℕ) (v : Option ℚ) : Rec :=
  ⟨y, dateFromOrdinal y (c + 1), dayOfYear (dateFromOrdinal y (c + 1)), v⟩

/-- The frame `df_years` after src/app.py lines 127-140: year rows exploded to one
row per array element, dated from Jan 1 of the row's year by the groupwise cumcount,
with `day_of_year` recomputed from `date` and `None` replaced by NaN. -/
def sstRecords (input : List (ℕ × List (Option ℚ))) : List Rec :=
  (cumcountAux (sstFlat input) fun _ => 0).map fun t => sstRec t.1 t.2.1 t.2.2

/-! ## Baseline mean and anomaly (src/app.py lines 142-147 and 222-229) -/

/-- `df['date'].dt.year.isin(range(a, b))` (lines 143, 223): note that Python
`range(a, b)` contains `a, ..., b - 1` and EXCLUDES `b`. -/
def inBaselineRange (a b : ℕ) (r : Rec) : Bool :=
  decide (a ≤ r.date.year) && decide (r.date.year < b)

/-- The values of a group that are actually present (pandas skips NaN). -/
def presentVals (rs : List Rec) : List ℚ := rs.filterMap fun r => r.data

/-- pandas groupby-mean of one group: NaN-skipping mean, NaN (`none`) when the group
has no present value (the group key still exists in that case). -/
def meanOpt (l : List ℚ) : Option ℚ := if l.isEmpty then none else some (l.sum / l.length)

/-- The rows of the baseline slice that fall in day-of-year group `d`; the grouping
key is recomputed from `date` (lines 143, 223). -/
def baselineGroupRows (a b : ℕ) (rs : List Rec) (d : ℕ) : List Rec :=
  (rs.filter (inBaselineRange a b)).filter fun r => decide (dayOfYear r.date = d)

/-- The grouped series `day_of_year_mean_1982_2011` (lines 143-145, 223-226): the
NaN-skipping mean of the day-of-year group `d` of the year-filtered frame; `none`
both when the key `d` is absent and when its mean is NaN. -/
def day_of_year_mean (a b : ℕ) (rs : List Rec) (d : ℕ) : Option ℚ :=
  meanOpt (presentVals (baselineGroupRows a b rs d))

/-- Whether day-of-year `d` is a key of the grouped baseline series, i.e. whether any
year-filtered row has that day-of-year. -/
def hasBaselineKey (a b : ℕ) (rs : List Rec) (d : ℕ) : Bool :=
  (rs.filter (inBaselineRange a b)).any fun r => decide (dayOfYear r.date = d)

/-- NaN-propagating subtraction (line 147: `data - mean`). -/
def osub : Option ℚ → Option ℚ → Option ℚ
  | some x, some y => some (x - y)
  | _, _ => none

/-- Lines 146-147 (and 227-229): `merge(..., on='day_of_year')` is an INNER join, so
rows whose `day_of_year` is not a key of the baseline series are dropped (left order
is kept, baseline keys are unique), then `data = data - mean`. -/
def derive (a b : ℕ) (rs : List Rec) : List Rec :=
  (rs.filter fun r => hasBaselineKey a b rs r.day_of_year).map fun r =>
    { r with data := osub r.data (day_of_year_mean a b rs r.day_of_year) }

lemma mean_imp_key (a b : ℕ) (rs : List Rec) (d : ℕ) (μ : ℚ)
    (h : day_of_year_mean a b rs d = some μ) : hasBaselineKey a b rs d = true := by
  unfold day_of_year_mean meanOpt at h
  by_cases he : (presentVals (baselineGroupRows a b rs d)).isEmpty
  · rw [if_pos he] at h; cases h
  · have hne : presentVals (baselineGroupRows a b rs d) ≠ [] := by
      intro h0; rw [h0] at he; exact he rfl
    obtain ⟨q, hq⟩ := List.exists_mem_of_ne_nil _ hne
    obtain ⟨r, hr, _⟩ := List.mem_filterMap.1 hq
    obtain ⟨hr1, hr2⟩ := List.mem_filter.1 hr
    exact List.any_eq_true.2 ⟨r, hr1, hr2⟩

lemma derive_mem (a b : ℕ) (rs : List Rec) (r : Rec) (v μ : ℚ)
    (h1 : r ∈ rs) (h2 : r.data = some v)
    (h3 : day_of_year_mean a b rs r.day_of_year = some μ) :
    { r with data := some (v - μ) } ∈ derive a b rs := by
  unfold derive
  refine List.mem_map.2 ⟨r, List.mem_filter.2 ⟨h1, mean_imp_key a b rs _ μ h3⟩, ?_⟩
  rw [h2, h3]
  rfl

/-- Inverting `derive`: every output row is an input row with only `data` rewritten. -/
lemma mem_derive_src (a b : ℕ) (rs : List Rec) (r2 : Rec) (h : r2 ∈ derive a b rs) :
    ∃ r ∈ rs, r2.name = r.name ∧ r2.date = r.date ∧ r2.day_of_year = r.day_of_year := by
  unfold derive at h
  obtain ⟨r, hr, rfl⟩ := List.mem_map.1 h
  exact ⟨r, (List.mem_filter.1 hr).1, rfl, rfl, rfl⟩

lemma mem_sstRecords (input : List (ℕ × List (Option ℚ))) (r : Rec)
    (h : r ∈ sstRecords input) : ∃ y c v, r = sstRec y c v := by
  unfold sstRecords at h
  obtain ⟨t, _, rfl⟩ := List.mem_map.1 h
  exact ⟨t.1, t.2.1, t.2.2, rfl⟩

/-! ## The SIE frame of `sie_anomaly_fig` (src/app.py lines 210-234) -/

/-- One raw CSV row of the sea-ice-extent source: Year/Month/Day integer columns and
the `Extent` measurement. -/
structure SieRow where
  Year : ℕ
  Month : ℕ
  Day : ℕ
  Extent : ℚ
deriving DecidableEq, Repr

/-- Lines 214-220: `date = pd.to_datetime(df[['Year','Month','Day']])` and
`day_of_year = date.dt.dayofyear`; the `Year` column doubles as the record key. -/
def sieRec (w : SieRow) : Rec :=
  ⟨w.Year, ⟨w.Year, w.Month, w.Day⟩, dayOfYear ⟨w.Year, w.Month, w.Day⟩, some w.Extent⟩

def sieRecords (rows : List SieRow) : List Rec := rows.map sieRec

/-- The key of `df.sort_values('day_of_year')` (line 231). -/
def doyLe (x y : Rec) : Prop := x.day_of_year ≤ y.day_of_year

/-- The key of `df.sort_values('Year')` (line 230). -/
def yearLe (x y : Rec) : Prop := x.name ≤ y.name

instance : DecidableRel doyLe := fun x y => inferInstanceAs (Decidable (x.day_of_year ≤ y.day_of_year))

instance : DecidableRel yearLe := fun x y => inferInstanceAs (Decidable (x.name ≤ y.name))

instance : IsTotal Rec doyLe := ⟨fun x y => Nat.le_total x.day_of_year y.day_of_year⟩

instance : IsTrans Rec doyLe := ⟨fun _ _ _ h h2 => Nat.le_trans h h2⟩

/-- Lines 222-231: merge-and-subtract against the `range(a, b)` baseline, then
`sort_values('Year')` followed by `sort_values('day_of_year')` (modelled by a stable
insertion sort; pandas' default quicksort fixes no tie order, and nothing proved
below about the day-of-year keys depends on the tie order). -/
def sieAnomaly (a b : ℕ) (rows : List SieRow) : List Rec :=
  List.insertionSort doyLe (List.insertionSort yearLe (derive a b (sieRecords rows)))

def uniqueAux : ℕ → List ℕ → List ℕ
  | 0, _ => []
  | _, [] => []
  | f + 1, y :: t => y :: uniqueAux f (t.filter fun z => decide (z ≠ y))

/-- `Series.unique()` (lines 79, 234): first-appearance order of the distinct values. -/
def uniqueL (l : List ℕ) : List ℕ := uniqueAux l.length l

/-- The order in which the per-year traces are drawn (line 234 and the loop at 246):
distinct `Year` values in their order of appearance in the sorted frame. -/
def sieYears (a b : ℕ) (rows : List SieRow) : List ℕ :=
  uniqueL ((sieAnomaly a b rows).map fun r => r.name)

/-- Boolean check that a list of naturals is ascending (adjacent-pairs ordered). -/
def ascNat : List ℕ → Bool
  | [] => true
  | [_] => true
  | x :: y :: t => decide (x ≤ y) && ascNat (y :: t)

lemma ascNat_of_pairwise : ∀ l : List ℕ, l.Pairwise (· ≤ ·) → ascNat l = true := by
  intro l
  induction l with
  | nil => intro _; rfl
  | cons x t ih =>
    intro h
    cases t with
    | nil => rfl
    | cons y t2 =>
      rw [List.pairwise_cons] at h
      obtain ⟨hx, ht⟩ := h
      show (decide (x ≤ y) && ascNat (y :: t2)) = true
      rw [Bool.and_eq_true, decide_eq_true_eq]
      exact ⟨hx y (by simp), ih ht⟩

/-! ## Positional form of the explode/cumcount construction (claim C10) -/

/-- Pair each element of a list with its 0-based position, starting at `s`. -/
def withIdx : ℕ → List (Option ℚ) → List (ℕ × Option ℚ)
  | _, [] => []
  | s, v :: t => (s, v) :: withIdx (s + 1) t

/-- How many rows of `l` carry name `z`. -/
def countFst (z : ℕ) : List (ℕ × Option ℚ) → ℕ
  | [] => 0
  | p :: t => (if p.1 = z then 1 else 0) + countFst z t

/-- `sstRecords` with the cumcount replaced by the within-group 0-based position;
equal to `sstRecords` whenever the year keys are distinct (`sstRecords_eq_pos`). -/
def sstRecordsPos (input : List (ℕ × List (Option ℚ))) : List Rec :=
  flatMapL (fun p => (withIdx 0 (pad p.2)).map fun q => sstRec p.1 q.1 q.2) input

lemma cumcountAux_congrMem : ∀ (l : List (ℕ × Option ℚ)) (c1 c2 : ℕ → ℕ),
    (∀ z, z ∈ l.map Prod.fst → c1 z = c2 z) → cumcountAux l c1 = cumcountAux l c2 := by
  intro l
  induction l with
  | nil => intro _ _ _; rfl
  | cons p t ih =>
    intro c1 c2 h
    have hp : c1 p.1 = c2 p.1 := h p.1 (by simp)
    show (p.1, c1 p.1, p.2) :: _ = (p.1, c2 p.1, p.2) :: _
    rw [hp]
    congr 1
    refine ih _ _ fun z hz => ?_
    by_cases hzp : z = p.1
    · simp only [if_pos hzp]
      rw [h z (by simp [hz])]
    · simp only [if_neg hzp]
      exact h z (by simp [hz])

lemma cumcountAux_append : ∀ (l1 l2 : List (ℕ × Option ℚ)) (cnt : ℕ → ℕ),
    cumcountAux (l1 ++ l2) cnt =
      cumcountAux l1 cnt ++ cumcountAux l2 fun z => cnt z + countFst z l1 := by
  intro l1
  induction l1 with
  | nil =>
    intro l2 cnt
    simp only [List.nil_append, cumcountAux]
    exact cumcountAux_congrMem l2 _ _ fun z _ => by simp [countFst]
  | cons p t ih =>
    intro l2 cnt
    show (p.1, cnt p.1, p.2) :: cumcountAux (t ++ l2) _ =
      ((p.1, cnt p.1, p.2) :: cumcountAux t _) ++ _
    rw [List.cons_append]
    congr 1
    rw [ih]
    congr 1
    refine cumcountAux_congrMem l2 _ _ fun z _ => ?_
    by_cases hzp : z = p.1
    · have : p.1 = z := hzp.symm
      simp only [if_pos hzp, countFst, if_pos this]
      omega
    · have : ¬p.1 = z := fun h0 => hzp h0.symm
      simp only [if_neg hzp, countFst, if_neg this]
      omega

lemma cumcountAux_block : ∀ (vs : List (Option ℚ)) (y : ℕ) (cnt : ℕ → ℕ),
    cumcountAux (vs.map fun v => (y, v)) cnt =
      (withIdx (cnt y) vs).map fun q => (y, q.1, q.2) := by
  intro vs
  induction vs with
  | nil => intro _ _; rfl
  | cons v t ih =>
    intro y cnt
    show (y, cnt y, v) :: cumcountAux (t.map fun v => (y, v)) _ = (y, cnt y, v) :: _
    congr 1
    rw [ih]
    congr 1
    simp

lemma countFst_block (z y : ℕ) (vs : List (Option ℚ)) :
    countFst z (vs.map fun v => (y, v)) = if y = z then vs.length else 0 := by
  induction vs with
  | nil => simp [countFst]
  | cons v t ih =>
    simp only [List.map_cons, countFst, ih, List.length_cons]
    split <;> omega

lemma sstFlat_fst_mem : ∀ (input : List (ℕ × List (Option ℚ))) (z : ℕ),
    z ∈ (sstFlat input).map Prod.fst → z ∈ input.map Prod.fst := by
  intro input
  induction input with
  | nil => intro z h; exact absurd h (by simp [sstFlat, flatMapL])
  | cons p t ih =>
    intro z h
    unfold sstFlat flatMapL at h
    rw [List.map_append, List.mem_append] at h
    rcases h with h | h
    · obtain ⟨q, hq, rfl⟩ := List.mem_map.1 h
      obtain ⟨v, _, rfl⟩ := List.mem_map.1 hq
      simp
    · exact List.mem_cons_of_mem _ (ih z h)

lemma sstRecords_eq_pos : ∀ input : List (ℕ × List (Option ℚ)),
    (input.map Prod.fst).Nodup → sstRecords input = sstRecordsPos input := by
  intro input
  induction input with
  | nil => intro _; rfl
  | cons p rest ih =>
    intro hnd
    rw [List.map_cons, List.nodup_cons] at hnd
    obtain ⟨hp, hrest⟩ := hnd
    unfold sstRecords sstRecordsPos sstFlat flatMapL
    rw [cumcountAux_append, List.map_append]
    congr 1
    · rw [cumcountAux_block, List.map_map]
      rfl
    · have hcnt : cumcountAux (sstFlat rest) (fun z => (fun _ => 0) z +
          countFst z ((pad p.2).map fun v => (p.1, v))) =
          cumcountAux (sstFlat rest) fun _ => 0 := by
        refine cumcountAux_congrMem _ _ _ fun z hz => ?_
        rw [countFst_block, if_neg]
        intro h0
        exact hp (h0 ▸ sstFlat_fst_mem rest z hz)
      have := ih hrest
      unfold sstRecords sstRecordsPos at this
      calc (cumcountAux (sstFlat rest) _).map (fun t => sstRec t.1 t.2.1 t.2.2)
          = (cumcountAux (sstFlat rest) fun _ => 0).map (fun t => sstRec t.1 t.2.1 t.2.2) := by
            rw [hcnt]
        _ = _ := this

lemma withIdx_mem : ∀ (l : List (Option ℚ)) (s k : ℕ) (v : Option ℚ),
    l[k]? = some v → (s + k, v) ∈ withIdx s l := by
  intro l
  induction l with
  | nil => intro s k v h; cases h
  | cons x t ih =>
    intro s k v h
    cases k with
    | zero =>
      obtain rfl : x = v := by simpa using h
      exact List.mem_cons_self _ _
    | succ k' =>
      have h' : t[k']? = some v := by simpa using h
      have := ih (s + 1) k' v h'
      refine List.mem_cons_of_mem _ ?_
      have harith : s + 1 + k' = s + (k' + 1) := by omega
      rw [harith] at this
      exact this

lemma mem_flatMapL {α β : Type} (f : α → List β) (x : β) :
    ∀ l : List α, (∃ a ∈ l, x ∈ f a) → x ∈ flatMapL f l := by
  intro l
  induction l with
  | nil => rintro ⟨a, ha, _⟩; cases ha
  | cons p t ih =>
    rintro ⟨a, ha, hx⟩
    unfold flatMapL
    rw [List.mem_append]
    rcases List.mem_cons.1 ha with rfl | ha'
    · exact Or.inl hx
    · exact Or.inr (ih ⟨a, ha', hx⟩)

/-! ## Spec-modelled Baseline Statistics Engine (variance/sigma half)

src/app.py computes only the per-day mean (lines 142-147); the sample standard
deviation and sigma of spec 4.2/4.3 exist only in other revisions of the
repository, so they are modelled from the spec here. -/

/-- Modelled from the spec: one `BaselineStatistics` entry, carrying the mean and the
sample variance (the spec's standard deviation is its square root); `variance` is
`none` (the NaN-equivalent) for groups with fewer than 2 present values. -/
structure BaselineEntry where
  mean : ℚ
  variance : Option ℚ
deriving DecidableEq, Repr

def meanQ (l : List ℚ) : ℚ := l.sum / l.length

/-- Modelled from the spec: sample variance with denominator `n - 1`, undefined
(`none`) for fewer than two values. -/
def sampleVariance (l : List ℚ) : Option ℚ :=
  if 2 ≤ l.length then some (((l.map fun x => (x - meanQ l) ^ 2).sum) / ((l.length : ℚ) - 1))
  else none

/-- The day-of-year group of the INCLUSIVE `[a, b]` baseline slice (spec 4.2 filters
to `date.year` in the closed interval), restricted to present values. -/
def specGroup (a b : ℕ) (rs : List Rec) (d : ℕ) : List ℚ :=
  presentVals ((rs.filter fun r => decide (a ≤ r.date.year) && decide (r.date.year ≤ b)).filter
    fun r => decide (dayOfYear r.date = d))

/-- Modelled from the spec: the Baseline Statistics Engine (spec 4.2) over the
inclusive year range `[a, b]`; absent (`none`) exactly for day-of-year groups with
no present value. -/
def computeBaselineSpec (a b : ℕ) (rs : List Rec) (d : ℕ) : Option BaselineEntry :=
  if (specGroup a b rs d).isEmpty then none
  else some ⟨meanQ (specGroup a b rs d), sampleVariance (specGroup a b rs d)⟩

/-- Modelled from the spec: sigma from the anomaly and the group variance; `none` (an
explicit sentinel, never a fault) when the standard deviation is zero or undefined.
The standard deviation itself is the real square root of the variance, hence `ℝ`. -/
noncomputable def sigmaVal (anom : Option ℚ) (varOpt : Option ℚ) : Option ℝ :=
  match anom, varOpt with
  | some aV, some w => if w = 0 then none else some ((aV : ℝ) / Real.sqrt (w : ℝ))
  | _, _ => none

/-- Modelled from the spec: the per-record Anomaly/Sigma Deriver (spec 4.3). -/
noncomputable def deriveAnomSigmaSpec (r : Rec) (entry : Option BaselineEntry) :
    Option ℚ × Option ℝ :=
  match entry, r.data with
  | some e, some v => (some (v - e.mean), sigmaVal (some (v - e.mean)) e.variance)
  | _, _ => (none, none)

/-! ## Spec-modelled Calendar Normalizer

src/app.py never densifies the calendar nor interpolates gaps (lines 15-34 only
explode the per-year arrays); the Calendar Normalizer of spec 4.1 exists only in
other revisions of the repository and is modelled from the spec here. -/

/-- Modelled from the spec: the Calendar Normalizer error taxonomy (spec 7). -/
inductive NormError
  | emptySeries
deriving DecidableEq, Repr

/-- Modelled from the spec: `minYear = min(date.year)` over the input. -/
def minYearD : List (Date × Option ℚ) → ℕ
  | [] => 0
  | p :: t => (t.map fun q => q.1.year).foldl min p.1.year

/-- Modelled from the spec: `maxYear = max(date.year)` over the input. -/
def maxYearD : List (Date × Option ℚ) → ℕ
  | [] => 0
  | p :: t => (t.map fun q => q.1.year).foldl max p.1.year

/-- Total number of days in all years before year `y`: an absolute day rank, under
which consecutive calendar days get consecutive ranks. -/
def daysUpto : ℕ → ℕ
  | 0 => 0
  | y + 1 => daysUpto y + daysInYear y

/-- All (year, 1-based ordinal day) keys of `fuel` consecutive years from `a`. -/
def denseKeysAux : ℕ → ℕ → List (ℕ × ℕ)
  | 0, _ => []
  | f + 1, a => ((List.range (daysInYear a)).map fun k => (a, k + 1)) ++ denseKeysAux f (a + 1)

/-- Modelled from the spec: every calendar date from Jan 1 of year `a` through
Dec 31 of year `b`, in calendar order, as (year, day-of-year) keys. -/
def denseKeys (a b : ℕ) : List (ℕ × ℕ) := denseKeysAux (b + 1 - a) a

/-- Modelled from the spec: the input value at one dense date, absent if the input
has no pair for that date. -/
def lookupVal (input : List (Date × Option ℚ)) (k : ℕ × ℕ) : Option ℚ :=
  match input.find? fun p => decide (p.1 = dateFromOrdinal k.1 k.2) with
  | some p => p.2
  | none => none

def denseVals (input : List (Date × Option ℚ)) (a b : ℕ) : List (Option ℚ) :=
  (denseKeys a b).map (lookupVal input)

/-- Nearest present value strictly before position `i` (searching downward). -/
def findPrev (vals : List (Option ℚ)) : ℕ → Option (ℕ × ℚ)
  | 0 => none
  | j + 1 =>
    match vals[j]? with
    | some (some v) => some (j, v)
    | _ => findPrev vals j

def findNextAux (vals : List (Option ℚ)) : ℕ → ℕ → Option (ℕ × ℚ)
  | 0, _ => none
  | f + 1, i =>
    match vals[i]? with
    | some (some v) => some (i, v)
    | some none => findNextAux vals f (i + 1)
    | none => none

/-- Nearest present value strictly after position `i`. -/
def findNext (vals : List (Option ℚ)) (i : ℕ) : Option (ℕ × ℚ) :=
  findNextAux vals vals.length (i + 1)

/-- Modelled from the spec: inside-only linear interpolation at dense position `i`
(positions are days, so the slope is per-day); leading/trailing gaps stay absent. -/
def interpAt (vals : List (Option ℚ)) (i : ℕ) : Option ℚ :=
  match vals[i]? with
  | some (some v) => some v
  | some none =>
    match findPrev vals i, findNext vals i with
    | some ju, some kw =>
      some (ju.2 + (kw.2 - ju.2) * (((i : ℚ) - (ju.1 : ℚ)) / ((kw.1 : ℚ) - (ju.1 : ℚ))))
    | _, _ => none
  | none => none

def interpolate (vals : List (Option ℚ)) : List (Option ℚ) :=
  (List.range vals.length).map (interpAt vals)

/-- A normalized record for one dense key. -/
def normRec (k : ℕ × ℕ) (v : Option ℚ) : Rec :=
  ⟨k.1, dateFromOrdinal k.1 k.2, dayOfYear (dateFromOrdinal k.1 k.2), v⟩

/-- Modelled from the spec: the Calendar Normalizer output for nonempty input — the
dense calendar with the looked-up values, gap-filled by inside-only interpolation. -/
def normalizeList (input : List (Date × Option ℚ)) : List Rec :=
  List.zipWith normRec (denseKeys (minYearD input) (maxYearD input))
    (interpolate (denseVals input (minYearD input) (maxYearD input)))

/-- Modelled from the spec: `normalize`, failing with `EmptySeriesError` exactly on
empty input (spec 4.1, 7). -/
def normalize (input : List (Date × Option ℚ)) : Except NormError (List Rec) :=
  match input with
  | [] => .error .emptySeries
  | _ => .ok (normalizeList input)

/-! ## Lemmas about the dense calendar -/

lemma interpolate_length (vals : List (Option ℚ)) : (interpolate vals).length = vals.length := by
  simp [interpolate]

lemma denseVals_length (input : List (Date × Option ℚ)) (a b : ℕ) :
    (denseVals input a b).length = (denseKeys a b).length := by
  simp [denseVals]

lemma denseKeysAux_mem : ∀ (f a : ℕ) (k : ℕ × ℕ), k ∈ denseKeysAux f a →
    1 ≤ k.2 ∧ k.2 ≤ daysInYear k.1 := by
  intro f
  induction f with
  | zero => intro a k hk; cases hk
  | succ f ih =>
    intro a k hk
    unfold denseKeysAux at hk
    rw [List.mem_append] at hk
    rcases hk with hk | hk
    · obtain ⟨j, hj, rfl⟩ := List.mem_map.1 hk
      rw [List.mem_range] at hj
      exact ⟨by omega, by simpa using hj⟩
    · exact ih (a + 1) k hk

lemma daysUpto_mono {a b : ℕ} (h : a ≤ b) : daysUpto a ≤ daysUpto b := by
  induction b with
  | zero =>
    have ha : a = 0 := by omega
    subst ha
    exact le_refl _
  | succ b ih =>
    rcases Nat.lt_or_ge a (b + 1) with h' | h'
    · calc daysUpto a ≤ daysUpto b := ih (by omega)
        _ ≤ daysUpto b + daysInYear b := Nat.le_add_right _ _
        _ = daysUpto (b + 1) := rfl
    · have ha : a = b + 1 := by omega
      subst ha
      exact le_refl _

lemma map_range_add_one (n s : ℕ) :
    (List.range n).map (fun k => s + 1 + k) = List.range' (s + 1) n := by
  induction n generalizing s with
  | zero => rfl
  | succ n ih =>
    rw [List.range_succ_eq_map, List.map_cons, List.map_map]
    show (s + 1 + 0) :: (List.range n).map (fun k => s + 1 + (k + 1)) = _
    have h1 : (fun k => s + 1 + (k + 1)) = fun k => (s + 1) + 1 + k := by
      funext k; omega
    rw [h1, ih (s + 1)]
    rfl

lemma range'_append_yrs (m n s : ℕ) :
    List.range' s m ++ List.range' (s + m) n = List.range' s (m + n) := by
  induction m generalizing s with
  | zero => simp
  | succ m ih =>
    have h0 : m + 1 + n = (m + n) + 1 := by omega
    rw [h0]
    show s :: (List.range' (s + 1) m ++ List.range' (s + (m + 1)) n) = s :: List.range' (s + 1) (m + n)
    have h1 : s + (m + 1) = (s + 1) + m := by omega
    rw [h1, ih (s + 1)]

lemma denseKeysAux_absMap : ∀ (f a : ℕ),
    (denseKeysAux f a).map (fun k => daysUpto k.1 + k.2) =
      List.range' (daysUpto a + 1) (daysUpto (a + f) - daysUpto a) := by
  intro f
  induction f with
  | zero => intro a; simp [denseKeysAux]
  | succ f ih =>
    intro a
    unfold denseKeysAux
    rw [List.map_append, List.map_map]
    have hblock : ((List.range (daysInYear a)).map
        ((fun k => daysUpto k.1 + k.2) ∘ fun k => ((a, k + 1) : ℕ × ℕ))) =
        List.range' (daysUpto a + 1) (daysInYear a) := by
      rw [← map_range_add_one (daysInYear a) (daysUpto a)]
      refine List.map_congr_left fun k _ => ?_
      show daysUpto a + (k + 1) = daysUpto a + 1 + k
      omega
    rw [hblock, ih (a + 1)]
    have h1 : daysUpto (a + 1) = daysUpto a + daysInYear a := rfl
    have h2 : daysUpto (a + 1) ≤ daysUpto (a + 1 + f) := daysUpto_mono (by omega)
    have h3 : daysUpto (a + 1) + 1 = (daysUpto a + 1) + daysInYear a := by omega
    rw [h3, range'_append_yrs]
    have h4 : a + 1 + f = a + (f + 1) := by omega
    rw [h4] at h2 ⊢
    congr 1
    omega

lemma zipWith_normRec_keys : ∀ (ks : List (ℕ × ℕ)) (vs : List (Option ℚ)),
    ks.length = vs.length → (∀ k ∈ ks, dayOfYear (dateFromOrdinal k.1 k.2) = k.2) →
    (List.zipWith normRec ks vs).map (fun r => (r.name, r.day_of_year)) = ks := by
  intro ks
  induction ks with
  | nil => intro vs _ _; rfl
  | cons k kt ih =>
    intro vs hl hdoy
    cases vs with
    | nil => cases hl
    | cons v vt =>
      show ((normRec k v).name, (normRec k v).day_of_year) :: _ = k :: kt
      have hk : ((normRec k v).name, (normRec k v).day_of_year) = k := by
        have := hdoy k (List.mem_cons_self _ _)
        show (k.1, dayOfYear (dateFromOrdinal k.1 k.2)) = k
        rw [this]
      rw [hk]
      congr 1
      exact ih vt (by simpa using hl) fun k' hk' => hdoy k' (List.mem_cons_of_mem _ hk')

lemma zipWith_normRec_vals : ∀ (ks : List (ℕ × ℕ)) (vs : List (Option ℚ)),
    ks.length = vs.length →
    (List.zipWith normRec ks vs).map (fun r => r.data) = vs := by
  intro ks
  induction ks with
  | nil =>
    intro vs hl
    cases vs with
    | nil => rfl
    | cons v vt => cases hl
  | cons k kt ih =>
    intro vs hl
    cases vs with
    | nil => cases hl
    | cons v vt =>
      show (normRec k v).data :: _ = v :: vt
      congr 1
      exact ih vt (by simpa using hl)

lemma interpolate_getElem? (vals : List (Option ℚ)) (i : ℕ) :
    (interpolate vals)[i]? = if i < vals.length then some (interpAt vals i) else none := by
  unfold interpolate
  rw [List.getElem?_map]
  by_cases h : i < vals.length
  · rw [if_pos h, List.getElem?_range h]
    rfl
  · rw [if_neg h]
    have : (List.range vals.length)[i]? = none :=
      List.getElem?_eq_none (by simpa using h)
    rw [this]
    rfl

lemma denseKeys_doy (a b : ℕ) (k : ℕ × ℕ) (hk : k ∈ denseKeys a b) :
    dayOfYear (dateFromOrdinal k.1 k.2) = k.2 := by
  obtain ⟨h1, h2⟩ := denseKeysAux_mem _ _ k hk
  exact (dateFromOrdinal_within k.1 k.2 h1 h2).2

/-! ## Claim theorems -/

/-- C1: for every record whose value is present and whose day-of-year has an entry
(a defined mean) in the baseline, the anomaly computed by lines 146-147 / 227-229
equals the record's value minus the baseline mean for that day-of-year; the record
survives the merge with exactly that value. -/
theorem anomaly_eq_value_sub_baseline_mean (a b : ℕ) (rs : List Rec) (r : Rec) (v μ : ℚ)
    (h1 : r ∈ rs) (h2 : r.data = some v)
    (h3 : day_of_year_mean a b rs r.day_of_year = some μ) :
    { r with data := some (v - μ) } ∈ derive a b rs :=
  derive_mem a b rs r v μ h1 h2 h3

lemma c1_witness_mean :
    day_of_year_mean 2000 2002 (sstRecords [(2000, [some 10]), (2001, [some 14])])
      (sstRec 2000 0 (some 10)).day_of_year = some 12 := by
  rw [show day_of_year_mean 2000 2002 (sstRecords [(2000, [some 10]), (2001, [some 14])])
    (sstRec 2000 0 (some 10)).day_of_year = meanOpt [10, 14] from rfl]
  simp [meanOpt]
  norm_num

/-- Witness for C1 at a concrete two-year series. -/
theorem anomaly_eq_value_sub_baseline_mean_witness :
    sstRec 2000 0 (some 10) ∈ sstRecords [(2000, [some 10]), (2001, [some 14])] ∧
    (sstRec 2000 0 (some 10)).data = some 10 ∧
    day_of_year_mean 2000 2002 (sstRecords [(2000, [some 10]), (2001, [some 14])])
      (sstRec 2000 0 (some 10)).day_of_year = some 12 ∧
    { sstRec 2000 0 (some 10) with data := some (10 - 12) } ∈
      derive 2000 2002 (sstRecords [(2000, [some 10]), (2001, [some 14])]) :=
  ⟨by decide, by decide, c1_witness_mean,
    anomaly_eq_value_sub_baseline_mean 2000 2002 _ _ 10 12 (by decide) (by decide) c1_witness_mean⟩

/-- C2 (code bug): the code filters baseline years with Python `range(start, end)`
(lines 143, 223), which EXCLUDES `end`, while its own comment and axis labels call
the result the `start`-`end` mean.  On the spec's scenario slice (years 2000-2002,
day-of-year 1, values 10/20/10, baseline range (2000, 2002)) the code's mean is
(10+20)/2 = 15, whereas the inclusive baseline of the spec (modelled by
`computeBaselineSpec`) gives (10+20+10)/3 = 40/3. -/
theorem baseline_range_excludes_end_year :
    day_of_year_mean 2000 2002
      (sstRecords [(2000, [some 10]), (2001, [some 20]), (2002, [some 10])]) 1 = some 15 ∧
    (computeBaselineSpec 2000 2002
      (sstRecords [(2000, [some 10]), (2001, [some 20]), (2002, [some 10])]) 1).map
        BaselineEntry.mean = some (40 / 3) := by
  constructor
  · rw [show day_of_year_mean 2000 2002
      (sstRecords [(2000, [some 10]), (2001, [some 20]), (2002, [some 10])]) 1 =
      meanOpt [10, 20] from rfl]
    simp [meanOpt]
    norm_num
  · rw [show (computeBaselineSpec 2000 2002
      (sstRecords [(2000, [some 10]), (2001, [some 20]), (2002, [some 10])]) 1).map
        BaselineEntry.mean = some (meanQ [10, 20, 10]) from rfl]
    simp [meanQ]
    norm_num

/-- C4 (code bug): the inner merge of line 146 drops every record whose day-of-year
has no entry in the baseline series instead of keeping it with an absent anomaly.
With baseline years `range(1990, 1995)`, the day-2 record of year 2000 (which is in
the frame, second conjunct) disappears from the derived output (first conjunct). -/
theorem merge_drops_records_without_baseline_key :
    derive 1990 1995 (sstRecords [(1990, [some 5]), (2000, [some 10, some 11])]) =
      [⟨1990, ⟨1990, 1, 1⟩, 1, some 0⟩, ⟨2000, ⟨2000, 1, 1⟩, 1, some 5⟩] ∧
    sstRec 2000 1 (some 11) ∈ sstRecords [(1990, [some 5]), (2000, [some 10, some 11])] ∧
    (sstRec 2000 1 (some 11)).day_of_year = 2 := by
  refine ⟨?_, by decide, by decide⟩
  rw [show derive 1990 1995 (sstRecords [(1990, [some 5]), (2000, [some 10, some 11])]) =
    [⟨1990, ⟨1990, 1, 1⟩, 1, osub (some 5) (meanOpt [5])⟩,
     ⟨2000, ⟨2000, 1, 1⟩, 1, osub (some 10) (meanOpt [5])⟩] from rfl]
  have hm : meanOpt [5] = some 5 := by simp [meanOpt]
  rw [hm]
  show [⟨1990, ⟨1990, 1, 1⟩, 1, some ((5 : ℚ) - 5)⟩,
    ⟨2000, ⟨2000, 1, 1⟩, 1, some ((10 : ℚ) - 5)⟩] = ([_, _] : List Rec)
  norm_num

/-- A dashboard rerun: range `p` applied to a frame rebuilt from the same raw input
(each call of `sst_anomaly_fig` refetches at line 124 and recomputes lines 127-147). -/
def sstRun (p : ℕ × ℕ) (input : List (ℕ × List (Option ℚ))) : List Rec :=
  derive p.1 p.2 (sstRecords input)

/-- Successive reruns with different baseline ranges, each from the original input. -/
def sstRuns (ps : List (ℕ × ℕ)) (input : List (ℕ × List (Option ℚ))) : List (List Rec) :=
  ps.map fun p => sstRun p input

/-- C8: re-running with a second baseline `p2` after a first baseline `p1` derives
the anomaly from the ORIGINAL value series: the second run equals `derive p2` of the
original frame, and the anomaly of a record is its original value minus the `p2`
mean — never a compounded `p1` anomaly minus the `p2` mean. -/
theorem anomaly_rerun_no_compounding (p1 p2 : ℕ × ℕ) (input : List (ℕ × List (Option ℚ)))
    (r : Rec) (v μ : ℚ) (h1 : r ∈ sstRecords input) (h2 : r.data = some v)
    (h3 : day_of_year_mean p2.1 p2.2 (sstRecords input) r.day_of_year = some μ) :
    (sstRuns [p1, p2] input)[1]? = some (derive p2.1 p2.2 (sstRecords input)) ∧
    { r with data := some (v - μ) } ∈ derive p2.1 p2.2 (sstRecords input) :=
  ⟨rfl, derive_mem p2.1 p2.2 _ r v μ h1 h2 h3⟩

lemma c8_witness_mean :
    day_of_year_mean 2000 2002 (sstRecords [(2000, [some 11]), (2001, [some 15])])
      (sstRec 2000 0 (some 11)).day_of_year = some 13 := by
  rw [show day_of_year_mean 2000 2002 (sstRecords [(2000, [some 11]), (2001, [some 15])])
    (sstRec 2000 0 (some 11)).day_of_year = meanOpt [11, 15] from rfl]
  simp [meanOpt]
  norm_num

/-- Witness for C8: run (1990, 1995) and then (2000, 2002) on the same raw input. -/
theorem anomaly_rerun_no_compounding_witness :
    sstRec 2000 0 (some 11) ∈ sstRecords [(2000, [some 11]), (2001, [some 15])] ∧
    (sstRec 2000 0 (some 11)).data = some 11 ∧
    day_of_year_mean 2000 2002 (sstRecords [(2000, [some 11]), (2001, [some 15])])
      (sstRec 2000 0 (some 11)).day_of_year = some 13 ∧
    ((sstRuns [(1990, 1995), (2000, 2002)] [(2000, [some 11]), (2001, [some 15])])[1]? =
      some (derive 2000 2002 (sstRecords [(2000, [some 11]), (2001, [some 15])])) ∧
    { sstRec 2000 0 (some 11) with data := some (11 - 13) } ∈
      derive 2000 2002 (sstRecords [(2000, [some 11]), (2001, [some 15])])) :=
  ⟨by decide, by decide, c8_witness_mean,
    anomaly_rerun_no_compounding (1990, 1995) (2000, 2002) _ _ 11 13
      (by decide) (by decide) c8_witness_mean⟩

/-- C6: the Calendar Normalizer fails with `EmptySeriesError` when, and only when,
the input has zero records, and succeeds (with the dense normalized series) on every
non-empty input.  Spec-modelled: src contains no Calendar Normalizer. -/
theorem normalize_empty_series_error_iff (input : List (Date × Option ℚ)) :
    (normalize input = Except.error NormError.emptySeries ↔ input = []) ∧
    (normalize input = Except.ok (normalizeList input) ↔ input ≠ []) := by
  cases input with
  | nil => constructor <;> simp [normalize]
  | cons p t => constructor <;> simp [normalize]

/-- C7: in every pipeline output (the exploded SST frame, its derived-anomaly frame,
and the SIE frame), `day_of_year` is the value recomputed from the record's `date`
(it is never carried from source data), lies in 1..366, and is leap-year correct:
2020-12-31 has day-of-year 366 and 2021-12-31 has 365. -/
theorem day_of_year_recomputed_and_bounded (input : List (ℕ × List (Option ℚ)))
    (a b : ℕ) (r r2 : Rec) (rows : List SieRow) (w : SieRow)
    (h1 : r ∈ sstRecords input) (h2 : r2 ∈ derive a b (sstRecords input))
    (h3 : w ∈ rows) (h4 : (Date.mk w.Year w.Month w.Day).Valid) :
    (r.day_of_year = dayOfYear r.date ∧ 1 ≤ r.day_of_year ∧ r.day_of_year ≤ 366) ∧
    (r2.day_of_year = dayOfYear r2.date ∧ 1 ≤ r2.day_of_year ∧ r2.day_of_year ≤ 366) ∧
    (sieRec w ∈ sieRecords rows ∧ (sieRec w).day_of_year = dayOfYear (sieRec w).date ∧
      1 ≤ (sieRec w).day_of_year ∧ (sieRec w).day_of_year ≤ 366) ∧
    dayOfYear ⟨2020, 12, 31⟩ = 366 ∧ dayOfYear ⟨2021, 12, 31⟩ = 365 := by
  have sstProp : ∀ r' : Rec, r' ∈ sstRecords input →
      r'.day_of_year = dayOfYear r'.date ∧ 1 ≤ r'.day_of_year ∧ r'.day_of_year ≤ 366 := by
    intro r' hr'
    obtain ⟨y, c, v, rfl⟩ := mem_sstRecords input r' hr'
    obtain ⟨_, hb1, hb2⟩ := dateFromOrdinal_ok y (c + 1) (by omega)
    exact ⟨rfl, hb1, hb2⟩
  refine ⟨sstProp r h1, ?_, ?_, by decide, by decide⟩
  · obtain ⟨r0, hr0, hn, hd, hdoy⟩ := mem_derive_src a b _ r2 h2
    obtain ⟨e1, e2, e3⟩ := sstProp r0 hr0
    exact ⟨by rw [hdoy, hd, e1], by rw [hdoy]; exact e2, by rw [hdoy]; exact e3⟩
  · obtain ⟨hb1, hb2⟩ := dayOfYear_bounds_of_valid _ h4
    exact ⟨List.mem_map.2 ⟨w, h3, rfl⟩, rfl, hb1, hb2⟩

/-- Witness for C7 on concrete SST and SIE inputs. -/
theorem day_of_year_recomputed_and_bounded_witness :
    sstRec 2020 0 (some 1) ∈ sstRecords [(2020, [some 1])] ∧
    { sstRec 2020 0 (some 1) with
        data := osub (some 1) (day_of_year_mean 2019 2021 (sstRecords [(2020, [some 1])]) 1) } ∈
      derive 2019 2021 (sstRecords [(2020, [some 1])]) ∧
    (⟨2021, 12, 31, 5⟩ : SieRow) ∈ ([⟨2021, 12, 31, 5⟩] : List SieRow) ∧
    (Date.mk 2021 12 31).Valid ∧
    (((sstRec 2020 0 (some 1)).day_of_year = dayOfYear (sstRec 2020 0 (some 1)).date ∧
      1 ≤ (sstRec 2020 0 (some 1)).day_of_year ∧ (sstRec 2020 0 (some 1)).day_of_year ≤ 366) ∧
    (({ sstRec 2020 0 (some 1) with
        data := osub (some 1) (day_of_year_mean 2019 2021 (sstRecords [(2020, [some 1])]) 1) } :
        Rec).day_of_year = dayOfYear ({ sstRec 2020 0 (some 1) with
        data := osub (some 1) (day_of_year_mean 2019 2021 (sstRecords [(2020, [some 1])]) 1) } :
        Rec).date ∧
      1 ≤ ({ sstRec 2020 0 (some 1) with
        data := osub (some 1) (day_of_year_mean 2019 2021 (sstRecords [(2020, [some 1])]) 1) } :
        Rec).day_of_year ∧
      ({ sstRec 2020 0 (some 1) with
        data := osub (some 1) (day_of_year_mean 2019 2021 (sstRecords [(2020, [some 1])]) 1) } :
        Rec).day_of_year ≤ 366) ∧
    (sieRec ⟨2021, 12, 31, 5⟩ ∈ sieRecords [⟨2021, 12, 31, 5⟩] ∧
      (sieRec ⟨2021, 12, 31, 5⟩).day_of_year = dayOfYear (sieRec ⟨2021, 12, 31, 5⟩).date ∧
      1 ≤ (sieRec ⟨2021, 12, 31, 5⟩).day_of_year ∧ (sieRec ⟨2021, 12, 31, 5⟩).day_of_year ≤ 366) ∧
    dayOfYear ⟨2020, 12, 31⟩ = 366 ∧ dayOfYear ⟨2021, 12, 31⟩ = 365) := by
  have hmem : sstRec 2020 0 (some 1) ∈ sstRecords [(2020, [some 1])] := by decide
  have hder : { sstRec 2020 0 (some 1) with
      data := osub (some 1) (day_of_year_mean 2019 2021 (sstRecords [(2020, [some 1])]) 1) } ∈
      derive 2019 2021 (sstRecords [(2020, [some 1])]) := by
    unfold derive
    refine List.mem_map.2 ⟨sstRec 2020 0 (some 1), List.mem_filter.2 ⟨hmem, by decide⟩, rfl⟩
  exact ⟨hmem, hder, by decide, by decide,
    day_of_year_recomputed_and_bounded [(2020, [some 1])] 2019 2021 _ _ _ _
      hmem hder (by decide) (by decide)⟩

/-- C10: for the year-keyed JSON source (distinct year keys), within each year group
the record at 0-based array position `k` is dated Jan 1 of that year plus `k` days
(the date with 1-based ordinal `k + 1`), so for `k` below the number of days in that
calendar year its day-of-year is `k + 1` and its date stays in that year. -/
theorem json_year_position_day_of_year (input : List (ℕ × List (Option ℚ)))
    (y k : ℕ) (l : List (Option ℚ)) (v : Option ℚ)
    (hnd : (input.map Prod.fst).Nodup) (hmem : (y, l) ∈ input)
    (hk : l[k]? = some v) (hday : k < daysInYear y) :
    sstRec y k v ∈ sstRecords input ∧ sstRec y k v =
      ⟨y, dateFromOrdinal y (k + 1), dayOfYear (dateFromOrdinal y (k + 1)), v⟩ ∧
    (sstRec y k v).day_of_year = k + 1 ∧ (sstRec y k v).date.year = y := by
  obtain ⟨hyr, hdoy⟩ := dateFromOrdinal_within y (k + 1) (by omega) (by omega)
  refine ⟨?_, rfl, hdoy, hyr⟩
  rw [sstRecords_eq_pos input hnd]
  unfold sstRecordsPos
  refine mem_flatMapL _ _ input ⟨(y, l), hmem, ?_⟩
  have hlne : ¬l.isEmpty := by
    cases l with
    | nil => cases hk
    | cons x t => simp [List.isEmpty]
  have hpad : pad l = l := by unfold pad; rw [if_neg hlne]
  rw [hpad]
  have := withIdx_mem l 0 k v hk
  rw [Nat.zero_add] at this
  exact List.mem_map.2 ⟨(k, v), this, rfl⟩

/-- Witness for C10: year 2020, array position 1. -/
theorem json_year_position_day_of_year_witness :
    ((([(2020, [some 1, some 2])] : List (ℕ × List (Option ℚ))).map Prod.fst).Nodup) ∧
    ((2020 : ℕ), ([some 1, some 2] : List (Option ℚ))) ∈
      ([(2020, [some 1, some 2])] : List (ℕ × List (Option ℚ))) ∧
    ([some (1 : ℚ), some 2][1]? = some (some 2)) ∧ 1 < daysInYear 2020 ∧
    (sstRec 2020 1 (some 2) ∈ sstRecords [(2020, [some 1, some 2])] ∧
    sstRec 2020 1 (some 2) =
      ⟨2020, dateFromOrdinal 2020 2, dayOfYear (dateFromOrdinal 2020 2), some 2⟩ ∧
    (sstRec 2020 1 (some 2)).day_of_year = 2 ∧ (sstRec 2020 1 (some 2)).date.year = 2020) :=
  ⟨by decide, by decide, by decide, by decide,
    json_year_position_day_of_year [(2020, [some 1, some 2])] 2020 1 [some 1, some 2] (some 2)
      (by decide) (by decide) (by decide) (by decide)⟩

/-- C9 counterexample: the year-partitioned output is NOT ordered by ascending year.
After line 231's re-sort by `day_of_year`, line 234's `unique()` sees year 2001 (at
day-of-year 1) before year 2000 (at day-of-year 5), so the partition order is
[2001, 2000] — descending. -/
theorem partition_years_not_ascending_cex :
    sieYears 2000 2022 [⟨2000, 1, 5, 1⟩, ⟨2001, 1, 1, 2⟩] = [2001, 2000] ∧
    ascNat (sieYears 2000 2022 [⟨2000, 1, 5, 1⟩, ⟨2001, 1, 1, 2⟩]) = false := by
  constructor <;> decide

/-- C9 amended: within each year group the partitioned records of `sie_anomaly_fig`
are ordered by ascending `day_of_year` (the frame is sorted by `day_of_year` last,
and filtering a sorted frame keeps it sorted); the years themselves appear in
first-appearance order after that sort, which is not guaranteed ascending. -/
theorem partition_within_year_doy_ascending (a b y : ℕ) (rows : List SieRow) :
    ascNat (((sieAnomaly a b rows).filter fun r => decide (r.name = y)).map
      fun r => r.day_of_year) = true := by
  have hs : (sieAnomaly a b rows).Sorted doyLe := List.sorted_insertionSort doyLe _
  have hf : ((sieAnomaly a b rows).filter fun r => decide (r.name = y)).Pairwise doyLe :=
    List.Pairwise.filter _ hs
  refine ascNat_of_pairwise _ ?_
  exact List.pairwise_map.2 hf

/-- C3 (spec-modelled): a baseline entry exists only for groups with a present value;
its sample standard deviation (carried as the variance, whose square root it is) is
defined exactly for groups with at least 2 present values and has denominator
`n - 1` (third conjunct: variance times `n - 1` is the sum of squared deviations
from the group mean); sigma is the anomaly divided by the standard deviation, and is
the explicit `none` sentinel — never a fault — when the standard deviation is zero
or undefined. -/
theorem baseline_std_and_sigma_spec (a b : ℕ) (rs : List Rec) (d : ℕ) (e : BaselineEntry)
    (w v : ℚ) (r : Rec)
    (h1 : computeBaselineSpec a b rs d = some e) (h2 : e.variance = some w)
    (h3 : r.data = some v) :
    1 ≤ (specGroup a b rs d).length ∧ 2 ≤ (specGroup a b rs d).length ∧
    w * (((specGroup a b rs d).length : ℚ) - 1) =
      ((specGroup a b rs d).map fun x => (x - e.mean) ^ 2).sum ∧
    deriveAnomSigmaSpec r (some e) =
      (some (v - e.mean), sigmaVal (some (v - e.mean)) (some w)) ∧
    sigmaVal (some (v - e.mean)) (some w) =
      (if w = 0 then none else some (((v - e.mean : ℚ) : ℝ) / Real.sqrt (w : ℝ))) ∧
    sigmaVal (some (v - e.mean)) none = none ∧
    sigmaVal (some (v - e.mean)) (some 0) = none ∧
    sigmaVal none (some w) = none := by
  unfold computeBaselineSpec at h1
  by_cases hemp : (specGroup a b rs d).isEmpty
  · rw [if_pos hemp] at h1; cases h1
  · rw [if_neg hemp] at h1
    injection h1 with h1
    subst h1
    have h2v : sampleVariance (specGroup a b rs d) = some w := h2
    unfold sampleVariance at h2v
    by_cases hlen : 2 ≤ (specGroup a b rs d).length
    · rw [if_pos hlen] at h2v
      injection h2v with h2v
      have hlen1 : 1 ≤ (specGroup a b rs d).length := by omega
      have hne : (((specGroup a b rs d).length : ℚ) - 1) ≠ 0 := by
        have h2q : (2 : ℚ) ≤ ((specGroup a b rs d).length : ℚ) := by exact_mod_cast hlen
        intro h0
        linarith
      refine ⟨hlen1, hlen, ?_, ?_, rfl, rfl, by simp [sigmaVal], rfl⟩
      · rw [← h2v]
        exact div_mul_cancel₀ _ hne
      · simp only [deriveAnomSigmaSpec, h3]
        rw [show sampleVariance (specGroup a b rs d) = some w from h2]
    · rw [if_neg hlen] at h2v; cases h2v

lemma c3_witness_baseline :
    computeBaselineSpec 2000 2002
      [⟨2000, ⟨2000, 1, 1⟩, 1, some 10⟩, ⟨2001, ⟨2001, 1, 1⟩, 1, some 20⟩,
        ⟨2002, ⟨2002, 1, 1⟩, 1, some 10⟩] 1 =
      some ⟨40 / 3, some (100 / 3)⟩ := by
  rw [show computeBaselineSpec 2000 2002
      [⟨2000, ⟨2000, 1, 1⟩, 1, some 10⟩, ⟨2001, ⟨2001, 1, 1⟩, 1, some 20⟩,
        ⟨2002, ⟨2002, 1, 1⟩, 1, some 10⟩] 1 =
      some ⟨meanQ [10, 20, 10], sampleVariance [10, 20, 10]⟩ from rfl]
  have hm : meanQ [10, 20, 10] = 40 / 3 := by
    simp only [meanQ, List.sum_cons, List.sum_nil, List.length_cons, List.length_nil]
    norm_num
  have hv : sampleVariance [10, 20, 10] = some (100 / 3) := by
    unfold sampleVariance
    rw [if_pos (by simp)]
    rw [hm]
    simp only [List.map_cons, List.map_nil, List.sum_cons, List.sum_nil,
      List.length_cons, List.length_nil]
    norm_num
  rw [hm, hv]

/-- Witness for C3: the spec's scenario group (values 10/20/10 on one day-of-year,
inclusive baseline 2000-2002): mean 40/3, sample variance 100/3, sigma defined. -/
theorem baseline_std_and_sigma_spec_witness :
    computeBaselineSpec 2000 2002
      [⟨2000, ⟨2000, 1, 1⟩, 1, some 10⟩, ⟨2001, ⟨2001, 1, 1⟩, 1, some 20⟩,
        ⟨2002, ⟨2002, 1, 1⟩, 1, some 10⟩] 1 = some ⟨40 / 3, some (100 / 3)⟩ ∧
    (BaselineEntry.mk (40 / 3) (some (100 / 3))).variance = some (100 / 3) ∧
    (Rec.mk 2001 ⟨2001, 1, 1⟩ 1 (some 20)).data = some 20 ∧
    (1 ≤ (specGroup 2000 2002
      [⟨2000, ⟨2000, 1, 1⟩, 1, some 10⟩, ⟨2001, ⟨2001, 1, 1⟩, 1, some 20⟩,
        ⟨2002, ⟨2002, 1, 1⟩, 1, some 10⟩] 1).length ∧
    2 ≤ (specGroup 2000 2002
      [⟨2000, ⟨2000, 1, 1⟩, 1, some 10⟩, ⟨2001, ⟨2001, 1, 1⟩, 1, some 20⟩,
        ⟨2002, ⟨2002, 1, 1⟩, 1, some 10⟩] 1).length ∧
    (100 / 3 : ℚ) * (((specGroup 2000 2002
      [⟨2000, ⟨2000, 1, 1⟩, 1, some 10⟩, ⟨2001, ⟨2001, 1, 1⟩, 1, some 20⟩,
        ⟨2002, ⟨2002, 1, 1⟩, 1, some 10⟩] 1).length : ℚ) - 1) =
      ((specGroup 2000 2002
        [⟨2000, ⟨2000, 1, 1⟩, 1, some 10⟩, ⟨2001, ⟨2001, 1, 1⟩, 1, some 20⟩,
          ⟨2002, ⟨2002, 1, 1⟩, 1, some 10⟩] 1).map
        fun x => (x - (BaselineEntry.mk (40 / 3) (some (100 / 3))).mean) ^ 2).sum ∧
    deriveAnomSigmaSpec (Rec.mk 2001 ⟨2001, 1, 1⟩ 1 (some 20))
        (some (BaselineEntry.mk (40 / 3) (some (100 / 3)))) =
      (some (20 - (BaselineEntry.mk (40 / 3) (some (100 / 3))).mean),
        sigmaVal (some (20 - (BaselineEntry.mk (40 / 3) (some (100 / 3))).mean))
          (some (100 / 3))) ∧
    sigmaVal (some (20 - (BaselineEntry.mk (40 / 3) (some (100 / 3))).mean)) (some (100 / 3)) =
      (if (100 / 3 : ℚ) = 0 then none
        else some (((20 - (BaselineEntry.mk (40 / 3) (some (100 / 3))).mean : ℚ) : ℝ) /
          Real.sqrt ((100 / 3 : ℚ) : ℝ))) ∧
    sigmaVal (some (20 - (BaselineEntry.mk (40 / 3) (some (100 / 3))).mean)) none = none ∧
    sigmaVal (some (20 - (BaselineEntry.mk (40 / 3) (some (100 / 3))).mean)) (some 0) = none ∧
    sigmaVal none (some (100 / 3)) = none) :=
  ⟨c3_witness_baseline, rfl, rfl,
    baseline_std_and_sigma_spec 2000 2002 _ 1 _ (100 / 3) 20 _
      c3_witness_baseline rfl rfl⟩

/-- The density and interpolation contract of the Calendar Normalizer at one dense
position `i`: (1) the normalized records carry exactly the (year, day-of-year) keys
of every date from Jan 1 of the minimum observed year through Dec 31 of the maximum
observed year, in order; (2) their absolute day ranks are the consecutive integers
`daysUpto minYear + 1, ...` — one record per date, strictly ascending, none skipped
or repeated; (3) the value at position `i` is: the input value if present, else the
linear interpolation between the nearest preceding and following present values when
both exist, else absent (leading/trailing gaps stay absent). -/
def NormalizedDenseProp (input : List (Date × Option ℚ)) (i : ℕ) : Prop :=
  ((normalizeList input).map fun r => (r.name, r.day_of_year)) =
    denseKeys (minYearD input) (maxYearD input) ∧
  ((normalizeList input).map fun r => daysUpto r.name + r.day_of_year) =
    List.range' (daysUpto (minYearD input) + 1)
      (daysUpto (maxYearD input + 1) - daysUpto (minYearD input)) ∧
  ((normalizeList input).map fun r => r.data)[i]? =
    ((denseVals input (minYearD input) (maxYearD input))[i]?.map fun ov =>
      match ov with
      | some v => some v
      | none =>
        match findPrev (denseVals input (minYearD input) (maxYearD input)) i,
            findNext (denseVals input (minYearD input) (maxYearD input)) i with
        | some ju, some kw =>
          some (ju.2 + (kw.2 - ju.2) * (((i : ℚ) - (ju.1 : ℚ)) / ((kw.1 : ℚ) - (ju.1 : ℚ))))
        | _, _ => none)

/-- C5 (spec-modelled): for every non-empty input, the Calendar Normalizer outputs
exactly one record per date from Jan 1 of the minimum observed year through Dec 31
of the maximum observed year, strictly ascending with no date repeated or skipped
(its absolute day ranks form a consecutive `List.range'`), with interior gaps filled
by linear interpolation and leading/trailing gaps left absent. -/
theorem normalize_dense_and_interior_interpolation (input : List (Date × Option ℚ))
    (i : ℕ) (hne : input ≠ []) : NormalizedDenseProp input i := by
  have _ := hne
  unfold NormalizedDenseProp normalizeList
  have hlen : (denseKeys (minYearD input) (maxYearD input)).length =
      (interpolate (denseVals input (minYearD input) (maxYearD input))).length := by
    rw [interpolate_length, denseVals_length]
  have hkeys := zipWith_normRec_keys (denseKeys (minYearD input) (maxYearD input))
    (interpolate (denseVals input (minYearD input) (maxYearD input))) hlen
    (denseKeys_doy (minYearD input) (maxYearD input))
  refine ⟨hkeys, ?_, ?_⟩
  · have hmm : ((List.zipWith normRec (denseKeys (minYearD input) (maxYearD input))
        (interpolate (denseVals input (minYearD input) (maxYearD input)))).map
          fun r => daysUpto r.name + r.day_of_year) =
        (((List.zipWith normRec (denseKeys (minYearD input) (maxYearD input))
          (interpolate (denseVals input (minYearD input) (maxYearD input)))).map
            fun r => (r.name, r.day_of_year)).map
          fun k => daysUpto k.1 + k.2) := by
      rw [List.map_map]
      rfl
    rw [hmm, hkeys]
    unfold denseKeys
    rw [denseKeysAux_absMap]
    congr 1
    rcases Nat.le_total (minYearD input) (maxYearD input + 1) with h | h
    · rw [Nat.add_sub_cancel' h]
    · have h1 : maxYearD input + 1 - minYearD input = 0 := by omega
      have h2 := daysUpto_mono h
      rw [h1]
      simp only [Nat.add_zero]
      omega
  · have hvals := zipWith_normRec_vals (denseKeys (minYearD input) (maxYearD input))
      (interpolate (denseVals input (minYearD input) (maxYearD input))) hlen
    rw [hvals, interpolate_getElem?]
    by_cases h : i < (denseVals input (minYearD input) (maxYearD input)).length
    · rw [if_pos h]
      obtain ⟨ov, hov⟩ : ∃ ov,
          (denseVals input (minYearD input) (maxYearD input))[i]? = some ov :=
        ⟨_, List.getElem?_eq_getElem h⟩
      rw [hov]
      show some (interpAt (denseVals input (minYearD input) (maxYearD input)) i) = _
      unfold interpAt
      rw [hov]
      cases ov <;> rfl
    · rw [if_neg h]
      have hnone : (denseVals input (minYearD input) (maxYearD input))[i]? = none :=
        List.getElem?_eq_none (by omega)
      rw [hnone]
      rfl

/-- Witness for C5: two observations in 2021 with a one-day interior gap. -/
theorem normalize_dense_and_interior_interpolation_witness :
    ([((⟨2021, 1, 1⟩ : Date), some (1 : ℚ)), (⟨2021, 1, 3⟩, some 3)] :
      List (Date × Option ℚ)) ≠ [] ∧
    NormalizedDenseProp [((⟨2021, 1, 1⟩ : Date), some (1 : ℚ)), (⟨2021, 1, 3⟩, some 3)] 1 :=
  ⟨by decide, normalize_dense_and_interior_interpolation _ 1 (by decide)⟩

end ClimateDash
